import Mathlib

/-!
# Verification of the `mqtt` client-persistence interface

Formalisation of the keyed persistence store, the optional encoder hook and
the C boundary adapter declared in `src/mqtt/iclient_persistence.h`.

The header declares the pure interface (`iclient_persistence`,
`ipersistence_encoder`, the static C trampoline callbacks and the
`persistence_malloc`/`persistence_free` allocation pair); the adapter
implementation lives outside the provided sources, so the operational
behaviour below is modelled from the specification's contract and checked
against it.
-/

set_option autoImplicit false

namespace Mqtt

/-- Modelled from the spec: the error taxonomy of §7 for the persistence
store and encoder (the header signals these via `MqttPersistenceException`,
whose concrete class is not among the provided sources). -/
inductive PErr where
  | StoreUnavailable
  | WriteFailed
  | ReadFailed
  | RemoveFailed
  | NotFound
  | InvalidState
  | EncodingFailed
deriving DecidableEq, Repr

instance exceptDecEq {ε α : Type} [DecidableEq ε] [DecidableEq α] :
    DecidableEq (Except ε α) := fun
  | .ok a, .ok b => decidable_of_iff (a = b) (by simp)
  | .ok _, .error _ => isFalse (by simp)
  | .error _, .ok _ => isFalse (by simp)
  | .error e, .error e' => decidable_of_iff (e = e') (by simp)

/-- A key is a short string identifier. -/
abbrev Key := String

/-- A byte of a stored value; bytes are modelled as naturals. -/
abbrev Byte := Nat

/-- Modelled from the spec: the observable state of one persistence store
handle (`iclient_persistence` is a pure interface; its implementations are
not among the provided sources).  A store is an open/closed lifecycle flag
together with the keyed contents, an association list from keys to the
stored value bytes. -/
structure Store where
  isOpen : Bool
  entries : List (Key × List Byte)
deriving DecidableEq, Repr

/-- The store handle before `open` is ever called: closed, no contents. -/
def Store.init : Store := { isOpen := false, entries := [] }

/-- Did an operation succeed? -/
def exOk {ε α : Type} : Except ε α → Bool
  | .ok _ => true
  | .error _ => false

/-- Modelled from the spec: `open(clientId, serverURI)` establishes the
backing medium; `InvalidState` when the handle is already open,
`StoreUnavailable` when the medium cannot be accessed (modelled by the
`fault` flag). -/
def Store.openStore (s : Store) (_clientId _serverURI : String) (fault : Bool) :
    Except PErr Unit × Store :=
  if s.isOpen then (.error .InvalidState, s)
  else if fault then (.error .StoreUnavailable, s)
  else (.ok (), { s with isOpen := true })

/-- Modelled from the spec: `close()` releases the backing medium; after
`close`, only `open` is valid. -/
def Store.close (s : Store) : Except PErr Unit × Store :=
  if s.isOpen then (.ok (), { s with isOpen := false })
  else (.error .InvalidState, s)

/-- Modelled from the spec: `put(key, bufs)` replaces the value for `key`
with the concatenation of the segments, all-or-nothing; a medium fault
(`WriteFailed`) or a closed handle (`InvalidState`) leaves the state
untouched. -/
def Store.put (s : Store) (k : Key) (segs : List (List Byte)) (fault : Bool) :
    Except PErr Unit × Store :=
  if !s.isOpen then (.error .InvalidState, s)
  else if fault then (.error .WriteFailed, s)
  else (.ok (), { s with entries := (k, segs.flatten) :: s.entries.filter (fun p => p.1 ≠ k) })

/-- Modelled from the spec: `get(key)` returns the whole value for `key`;
`NotFound` when the key is absent, `ReadFailed` on a medium fault,
`InvalidState` on a closed handle.  A `const` query: the state component is
returned unchanged. -/
def Store.get (s : Store) (k : Key) (fault : Bool) :
    Except PErr (List Byte) × Store :=
  if !s.isOpen then (.error .InvalidState, s)
  else
    match s.entries.lookup k with
    | none => (.error .NotFound, s)
    | some v => if fault then (.error .ReadFailed, s) else (.ok v, s)

/-- Modelled from the spec: `remove(key)` drops the key, all-or-nothing; a
medium fault (`RemoveFailed`) or a closed handle (`InvalidState`) leaves the
state untouched.  Removing an absent key is a no-op success (the documented
choice for the ambiguity flagged in the spec). -/
def Store.remove (s : Store) (k : Key) (fault : Bool) :
    Except PErr Unit × Store :=
  if !s.isOpen then (.error .InvalidState, s)
  else if fault then (.error .RemoveFailed, s)
  else (.ok (), { s with entries := s.entries.filter (fun p => p.1 ≠ k) })

/-- Modelled from the spec: `contains_key(key)` never fails on an open
handle and reports whether the key is in the Key Set. -/
def Store.contains_key (s : Store) (k : Key) : Except PErr Bool × Store :=
  if !s.isOpen then (.error .InvalidState, s)
  else (.ok (s.entries.lookup k).isSome, s)

/-- Modelled from the spec: `keys()` returns a snapshot of the Key Set; a
`const` query, state unchanged. -/
def Store.keys (s : Store) : Except PErr (List Key) × Store :=
  if !s.isOpen then (.error .InvalidState, s)
  else (.ok (s.entries.map Prod.fst), s)

/-- Modelled from the spec: `clear()` removes all keys; `StoreUnavailable`
on a medium fault, `InvalidState` on a closed handle. -/
def Store.clear (s : Store) (fault : Bool) : Except PErr Unit × Store :=
  if !s.isOpen then (.error .InvalidState, s)
  else if fault then (.error .StoreUnavailable, s)
  else (.ok (), { s with entries := [] })

/-! ## Encoder (`ipersistence_encoder`) -/

/-- Modelled from the spec: an `ipersistence_encoder` implementation
(the interface's implementations are not among the provided sources).
`encode` transforms each outbound segment buffer; `decode` transforms the
whole inbound value; either may change the buffer length (the
reallocate-on-grow case of the header). -/
structure Encoder where
  enc : List Byte → List Byte
  dec : List Byte → List Byte

/-- The callback `encode(nbuf, bufs, lens)` applied to an array of segment
buffers: each buffer is transformed independently. -/
def Encoder.encodeBufs (e : Encoder) (bufs : List (List Byte)) : List (List Byte) :=
  bufs.map e.enc

/-- A byte-wise encoder configuration: encode maps `f` over every byte of a
segment, decode maps `g` over every byte of the retrieved value (e.g. an
XOR stream cipher for the confidentiality use case named by the header). -/
def mapEncoder (f g : Byte → Byte) : Encoder :=
  { enc := List.map f, dec := List.map g }

/-- Modelled from the spec: the write pipeline with an encoder installed —
each segment is encoded just prior to writing, then stored. -/
def Store.putEnc (s : Store) (e : Encoder) (k : Key) (segs : List (List Byte))
    (fault : Bool) : Except PErr Unit × Store :=
  s.put k (e.encodeBufs segs) fault

/-- Modelled from the spec: the read pipeline with an encoder installed —
the whole retrieved value is decoded after it is read back. -/
def Store.getEnc (s : Store) (e : Encoder) (k : Key) (fault : Bool) :
    Except PErr (List Byte) × Store :=
  ((s.get k fault).1.map e.dec, (s.get k fault).2)

/-! ## Boundary adapter: status codes -/

/-- Modelled from the spec: the fixed translation of each failure kind to
one distinct negative status code at the C boundary (the static trampoline
bodies are not among the provided sources). -/
def errCode : PErr → Int
  | .StoreUnavailable => -1
  | .WriteFailed => -2
  | .ReadFailed => -3
  | .RemoveFailed => -4
  | .NotFound => -5
  | .InvalidState => -6
  | .EncodingFailed => -7

/-- Translate an operation result to a C status code: success is `0`,
failure is the kind's fixed negative code. -/
def statusOf {α : Type} : Except PErr α → Int
  | .ok _ => 0
  | .error e => errCode e

/-- Modelled from the spec: the static callback `persistence_open`,
returning its status code and the post-call store state. -/
def persistence_open (s : Store) (clientID serverURI : String) (fault : Bool) :
    Int × Store :=
  let r := s.openStore clientID serverURI fault
  (statusOf r.1, r.2)

/-- Modelled from the spec: the static callback `persistence_close`. -/
def persistence_close (s : Store) : Int × Store :=
  (statusOf s.close.1, s.close.2)

/-- Modelled from the spec: the static callback `persistence_put`, taking
the marshalled parallel buffer/length arrays as the list of segments. -/
def persistence_put (s : Store) (k : Key) (bufs : List (List Byte))
    (fault : Bool) : Int × Store :=
  let r := s.put k bufs fault
  (statusOf r.1, r.2)

/-- Modelled from the spec: the static callback `persistence_get`; on
success the out-parameters carry the value. -/
def persistence_get (s : Store) (k : Key) (fault : Bool) :
    Int × Option (List Byte) × Store :=
  match s.get k fault with
  | (.ok v, s') => (0, some v, s')
  | (.error e, s') => (errCode e, none, s')

/-- Modelled from the spec: the static callback `persistence_remove`. -/
def persistence_remove (s : Store) (k : Key) (fault : Bool) : Int × Store :=
  let r := s.remove k fault
  (statusOf r.1, r.2)

/-- Modelled from the spec: the static callback `persistence_keys`; on
success the out-parameters carry the key array and its count. -/
def persistence_keys (s : Store) : Int × Option (List Key) × Store :=
  match s.keys with
  | (.ok ks, s') => (0, some ks, s')
  | (.error e, s') => (errCode e, none, s')

/-- Modelled from the spec: the static callback `persistence_clear`. -/
def persistence_clear (s : Store) (fault : Bool) : Int × Store :=
  let r := s.clear fault
  (statusOf r.1, r.2)

/-- Modelled from the spec: the static callback `persistence_containskey`;
the boolean answer is returned as a non-negative integer (`1`/`0`). -/
def persistence_containskey (s : Store) (k : Key) : Int × Store :=
  match s.contains_key k with
  | (.ok b, s') => (if b then 1 else 0, s')
  | (.error e, s') => (errCode e, s')

/-! ## Boundary adapter: length conversions

The C callbacks carry buffer lengths as `int` (`int buflens[]`,
`int* buflen`), while the typed encoder interface carries them as `size_t`
(`size_t lens[]`, `size_t* len`).  `size_t` is modelled as a 64-bit
unsigned value, `int` as a 32-bit two's-complement value. -/

/-- The largest value of the C `int` type (32-bit). -/
def INT_MAX : Int := 2147483647

/-- Modelled from the spec: the adapter's `size_t`-to-`int` length
conversion (the adapter implementation is not among the provided sources):
the value is reduced modulo `2^32` and reinterpreted as a 32-bit
two's-complement integer. -/
def intOfSize (n : Nat) : Int :=
  if n % 2 ^ 32 < 2 ^ 31 then ((n % 2 ^ 32 : Nat) : Int)
  else ((n % 2 ^ 32 : Nat) : Int) - 2 ^ 32

/-- Modelled from the spec: the adapter's `int`-to-`size_t` length
conversion: the value is reduced modulo `2^64` into an unsigned 64-bit
quantity. -/
def sizeOfInt (i : Int) : Nat :=
  (i % 2 ^ 64).toNat

/-! ## Boundary adapter: allocation discipline

Cross-boundary buffers are modelled as numbered allocations tagged by the
allocator that produced them. -/

/-- Which allocator produced a buffer: the paired persistence primitive
(`persistence_malloc`, wrapping `MQTTAsync_malloc`) or a generic allocator. -/
inductive Allocator where
  | paired
  | generic
deriving DecidableEq, Repr

/-- The allocation state: live buffers with their allocator tags, and the
next fresh buffer identifier. -/
structure Heap where
  live : List (Nat × Allocator)
  next : Nat
deriving DecidableEq, Repr

/-- Well-formed heap: every live buffer identifier is below `next`. -/
def Heap.wf (h : Heap) : Bool :=
  h.live.all (fun q => q.1 < h.next)

/-- The primitive `persistence_malloc(n)`: allocate a cross-boundary buffer
of `n` bytes through the paired primitive (wraps `MQTTAsync_malloc`);
returns the new heap and the buffer. -/
def persistence_malloc (h : Heap) (_n : Nat) : Heap × Nat :=
  ({ live := (h.next, Allocator.paired) :: h.live, next := h.next + 1 }, h.next)

/-- An allocation made through a generic allocator instead of the paired
primitive — what the contract forbids for cross-boundary buffers. -/
def generic_malloc (h : Heap) (_n : Nat) : Heap × Nat :=
  ({ live := (h.next, Allocator.generic) :: h.live, next := h.next + 1 }, h.next)

/-- The primitive `persistence_free(p)`: release a buffer obtained by
`persistence_malloc` (wraps `MQTTAsync_free`).  Releasing a buffer that is
not live, or that was produced by a mismatched (generic) allocator, is
undefined (`none`). -/
def persistence_free (h : Heap) (p : Nat) : Option Heap :=
  match h.live.lookup p with
  | some Allocator.paired => some { h with live := h.live.filter (fun q => q.1 ≠ p) }
  | _ => none

/-! ## Operation traces

To state temporal properties (what holds after an arbitrary sequence of
store calls), store operations are reified as a trace. -/

/-- One call on a store handle, with its arguments and fault injection. -/
inductive Op where
  | doOpen (clientId serverURI : String) (fault : Bool)
  | doClose
  | doPut (k : Key) (segs : List (List Byte)) (fault : Bool)
  | doGet (k : Key) (fault : Bool)
  | doRemove (k : Key) (fault : Bool)
  | doKeys
  | doClear (fault : Bool)
  | doContains (k : Key)
deriving DecidableEq, Repr

/-- The store state after one call. -/
def Op.step (s : Store) : Op → Store
  | .doOpen cid uri fault => (s.openStore cid uri fault).2
  | .doClose => s.close.2
  | .doPut k segs fault => (s.put k segs fault).2
  | .doGet k fault => (s.get k fault).2
  | .doRemove k fault => (s.remove k fault).2
  | .doKeys => s.keys.2
  | .doClear fault => (s.clear fault).2
  | .doContains k => (s.contains_key k).2

/-- The store state after a sequence of calls. -/
def runOps (s : Store) : List Op → Store
  | [] => s
  | op :: ops => runOps (op.step s) ops

/-- Does a call (potentially) disturb the value bound to key `k`?  Only
`put(k, ·)`, `remove(k)` and `clear()` do. -/
def Op.disturbs (k : Key) : Op → Bool
  | .doPut k' _ _ => k' == k
  | .doRemove k' _ => k' == k
  | .doClear _ => true
  | _ => false

/-! ## Basic lemmas about the model -/

theorem lookup_cons_self {β : Type} (k : Key) (v : β) (l : List (Key × β)) :
    ((k, v) :: l).lookup k = some v := by
  simp [List.lookup]

theorem lookup_cons_other {β : Type} {k k' : Key} (hkk : k ≠ k') (v : β)
    (l : List (Key × β)) : ((k', v) :: l).lookup k = l.lookup k := by
  simp [List.lookup_cons, beq_false_of_ne hkk]

theorem lookup_filter_self {β : Type} (k : Key) (l : List (Key × β)) :
    (l.filter (fun p => p.1 ≠ k)).lookup k = none := by
  induction l with
  | nil => rfl
  | cons a t ih =>
    obtain ⟨a1, a2⟩ := a
    by_cases hak : a1 = k
    · rw [List.filter_cons_of_neg (by simp [hak])]
      exact ih
    · rw [List.filter_cons_of_pos (by simp [hak])]
      rw [lookup_cons_other (Ne.symm hak) a2]
      exact ih

theorem lookup_filter_other {β : Type} {k k' : Key} (hkk : k ≠ k')
    (l : List (Key × β)) :
    (l.filter (fun p => p.1 ≠ k')).lookup k = l.lookup k := by
  induction l with
  | nil => rfl
  | cons a t ih =>
    obtain ⟨a1, a2⟩ := a
    by_cases hak : a1 = k'
    · rw [List.filter_cons_of_neg (by simp [hak])]
      rw [ih, lookup_cons_other (hak ▸ hkk) a2]
    · rw [List.filter_cons_of_pos (by simp [hak])]
      by_cases hka : k = a1
      · subst hka
        simp [List.lookup_cons]
      · rw [lookup_cons_other hka, lookup_cons_other hka, ih]

theorem lookup_isSome_iff_mem {β : Type} (k : Key) (l : List (Key × β)) :
    (l.lookup k).isSome = true ↔ k ∈ l.map Prod.fst := by
  induction l with
  | nil => simp [List.lookup]
  | cons a t ih =>
    obtain ⟨a1, a2⟩ := a
    by_cases hak : k = a1
    · subst hak
      simp [List.lookup_cons]
    · rw [lookup_cons_other hak]
      simp [hak, ih]

theorem openStore_entries (s : Store) (cid uri : String) (fault : Bool) :
    (s.openStore cid uri fault).2.entries = s.entries := by
  unfold Store.openStore
  split_ifs <;> rfl

theorem close_entries (s : Store) : s.close.2.entries = s.entries := by
  unfold Store.close
  split_ifs <;> rfl

theorem get_state (s : Store) (k : Key) (fault : Bool) : (s.get k fault).2 = s := by
  unfold Store.get
  split
  · rfl
  · split
    · rfl
    · split <;> rfl

theorem keys_state (s : Store) : s.keys.2 = s := by
  unfold Store.keys
  split <;> rfl

theorem contains_key_state (s : Store) (k : Key) : (s.contains_key k).2 = s := by
  unfold Store.contains_key
  split <;> rfl

theorem openStore_error_state (s : Store) (cid uri : String) (fault : Bool)
    (h : exOk (s.openStore cid uri fault).1 = false) :
    (s.openStore cid uri fault).2 = s := by
  unfold Store.openStore at *
  split_ifs at * <;> simp_all [exOk]

theorem close_error_state (s : Store) (h : exOk s.close.1 = false) :
    s.close.2 = s := by
  unfold Store.close at *
  split_ifs at * <;> simp_all [exOk]

theorem put_error_state (s : Store) (k : Key) (segs : List (List Byte))
    (fault : Bool) (h : exOk (s.put k segs fault).1 = false) :
    (s.put k segs fault).2 = s := by
  unfold Store.put at *
  split_ifs at * <;> simp_all [exOk]

theorem remove_error_state (s : Store) (k : Key) (fault : Bool)
    (h : exOk (s.remove k fault).1 = false) :
    (s.remove k fault).2 = s := by
  unfold Store.remove at *
  split_ifs at * <;> simp_all [exOk]

theorem clear_error_state (s : Store) (fault : Bool)
    (h : exOk (s.clear fault).1 = false) :
    (s.clear fault).2 = s := by
  unfold Store.clear at *
  split_ifs at * <;> simp_all [exOk]

theorem put_isOpen (s : Store) (k : Key) (segs : List (List Byte)) (fault : Bool) :
    (s.put k segs fault).2.isOpen = s.isOpen := by
  unfold Store.put
  split_ifs <;> rfl

theorem remove_isOpen (s : Store) (k : Key) (fault : Bool) :
    (s.remove k fault).2.isOpen = s.isOpen := by
  unfold Store.remove
  split_ifs <;> rfl

theorem clear_isOpen (s : Store) (fault : Bool) :
    (s.clear fault).2.isOpen = s.isOpen := by
  unfold Store.clear
  split_ifs <;> rfl

theorem put_entries_open (s : Store) (k : Key) (segs : List (List Byte))
    (hopen : s.isOpen = true) :
    (s.put k segs false).2.entries
      = (k, segs.flatten) :: s.entries.filter (fun p => p.1 ≠ k) := by
  unfold Store.put
  simp [hopen]

theorem remove_entries_open (s : Store) (k : Key) (hopen : s.isOpen = true) :
    (s.remove k false).2.entries = s.entries.filter (fun p => p.1 ≠ k) := by
  unfold Store.remove
  simp [hopen]

theorem get_of_lookup {s : Store} {k : Key} {v : List Byte}
    (hopen : s.isOpen = true) (hv : s.entries.lookup k = some v) :
    (s.get k false).1 = .ok v := by
  unfold Store.get
  simp [hopen, hv]

theorem step_preserves_lookup (op : Op) (s : Store) (k : Key)
    (hnd : op.disturbs k = false) :
    ((op.step s).entries.lookup k) = s.entries.lookup k := by
  cases op with
  | doOpen cid uri fault => rw [Op.step, openStore_entries]
  | doClose => rw [Op.step, close_entries]
  | doPut k' segs fault =>
    have hkk : k ≠ k' := by
      intro h
      simp [Op.disturbs, h] at hnd
    rw [Op.step]
    unfold Store.put
    split_ifs with h1 h2
    · rfl
    · rfl
    · simp only []
      rw [lookup_cons_other hkk, lookup_filter_other hkk]
  | doGet k' fault => rw [Op.step, get_state]
  | doRemove k' fault =>
    have hkk : k ≠ k' := by
      intro h
      simp [Op.disturbs, h] at hnd
    rw [Op.step]
    unfold Store.remove
    split_ifs with h1 h2
    · rfl
    · rfl
    · simp only []
      rw [lookup_filter_other hkk]
  | doKeys => rw [Op.step, keys_state]
  | doClear fault => simp [Op.disturbs] at hnd
  | doContains k' => rw [Op.step, contains_key_state]

theorem runOps_preserves_lookup (ops : List Op) (s : Store) (k : Key)
    (hnd : ops.all (fun op => ! op.disturbs k) = true) :
    ((runOps s ops).entries.lookup k) = s.entries.lookup k := by
  induction ops generalizing s with
  | nil => rfl
  | cons op ops ih =>
    rw [List.all_cons, Bool.and_eq_true] at hnd
    rw [runOps, ih _ hnd.2, step_preserves_lookup]
    simpa using hnd.1

theorem map_flatten_of_inverse (f g : Byte → Byte) (hinv : ∀ b, g (f b) = b)
    (segs : List (List Byte)) :
    ((segs.map (List.map f)).flatten).map g = segs.flatten := by
  induction segs with
  | nil => rfl
  | cons a t ih =>
    simp only [List.map_cons, List.flatten_cons, List.map_append, ih]
    congr 1
    rw [List.map_map]
    have : (fun b => g (f b)) = id := funext hinv
    simp only [Function.comp_def, this, List.map_id]

theorem xor_xor_cancel (key b : Byte) : (b ^^^ key) ^^^ key = b := by
  simp [Nat.xor_assoc]

theorem statusOf_neg_not_ok {α : Type} (x : Except PErr α) (h : statusOf x < 0) :
    exOk x = false := by
  cases x with
  | ok a => simp [statusOf] at h
  | error e => rfl

/-! ## Claim theorems -/

/-- C1: Atomicity of failure — for every key and store state, a failing
`put` leaves the key's prior value (or absence) unchanged, a failing
`remove` leaves the key's prior value unchanged (still treated as present),
and no failing store operation (`open`, `close`, `put`, `get`, `remove`,
`keys`, `clear`, `contains_key`) leaves the store in a state different from
the pre-call state. -/
theorem atomicity_of_failure (s : Store) (k : Key) (segs : List (List Byte))
    (cid uri : String) (fault : Bool) :
    (exOk (s.put k segs fault).1 = false →
      (s.put k segs fault).2 = s ∧
      (s.put k segs fault).2.entries.lookup k = s.entries.lookup k) ∧
    (exOk (s.remove k fault).1 = false →
      (s.remove k fault).2 = s ∧
      (s.remove k fault).2.entries.lookup k = s.entries.lookup k ∧
      (s.remove k fault).2.contains_key k = s.contains_key k) ∧
    (exOk (s.openStore cid uri fault).1 = false →
      (s.openStore cid uri fault).2 = s) ∧
    (exOk s.close.1 = false → s.close.2 = s) ∧
    (exOk (s.get k fault).1 = false → (s.get k fault).2 = s) ∧
    (exOk s.keys.1 = false → s.keys.2 = s) ∧
    (exOk (s.clear fault).1 = false → (s.clear fault).2 = s) ∧
    (exOk (s.contains_key k).1 = false → (s.contains_key k).2 = s) := by
  refine ⟨fun h => ?_, fun h => ?_, fun h => openStore_error_state s cid uri fault h,
    fun h => close_error_state s h, fun _ => get_state s k fault,
    fun _ => keys_state s, fun h => clear_error_state s fault h,
    fun _ => contains_key_state s k⟩
  · have he := put_error_state s k segs fault h
    exact ⟨he, by rw [he]⟩
  · have he := remove_error_state s k fault h
    exact ⟨he, by rw [he], by rw [he]⟩

/-- Witness for C1: a faulting `put` on an open store holding a value for
the key leaves the store exactly as it was. -/
theorem atomicity_of_failure_witness :
    exOk (Store.put { isOpen := true, entries := [("a", [1])] } "a" [[2]] true).1
        = false ∧
    (Store.put { isOpen := true, entries := [("a", [1])] } "a" [[2]] true).2
        = { isOpen := true, entries := [("a", [1])] } :=
  ⟨by decide,
   ((atomicity_of_failure { isOpen := true, entries := [("a", [1])] } "a" [[2]]
      "c" "u" true).1 (by decide)).1⟩

/-- C8: Remove-then-check — on an open store, removing a key and then
querying `contains_key` on it yields `false`, whether or not the key was
present before. -/
theorem remove_then_contains_false (s : Store) (k : Key)
    (hopen : s.isOpen = true) :
    (((s.remove k false).2).contains_key k).1 = .ok false := by
  have h1 : (s.remove k false).2.isOpen = true := by
    rw [remove_isOpen]
    exact hopen
  have h2 := remove_entries_open s k hopen
  unfold Store.contains_key
  simp only [h1, h2, Bool.not_true, Bool.false_eq_true, if_false, lookup_filter_self,
    Option.isSome_none]

/-- Witness for C8 on a store holding the key and on one not holding it. -/
theorem remove_then_contains_false_witness :
    ((({ isOpen := true, entries := [("k1", [7])] } : Store).remove "k1"
        false).2.contains_key "k1").1 = .ok false ∧
    ((({ isOpen := true, entries := [] } : Store).remove "k1"
        false).2.contains_key "k1").1 = .ok false :=
  ⟨remove_then_contains_false { isOpen := true, entries := [("k1", [7])] } "k1" rfl,
   remove_then_contains_false { isOpen := true, entries := [] } "k1" rfl⟩

/-- C10: Read-only queries — `get` and `keys` are `const`: they return the
store state unchanged, so every observable (`contains_key`, `get`, `keys`)
is identical before and after the call. -/
theorem get_keys_read_only (s : Store) (k k' : Key) (fault fault' : Bool) :
    (s.get k fault).2 = s ∧
    s.keys.2 = s ∧
    (s.get k fault).2.contains_key k' = s.contains_key k' ∧
    (s.get k fault).2.get k' fault' = s.get k' fault' ∧
    (s.get k fault).2.keys = s.keys ∧
    s.keys.2.contains_key k' = s.contains_key k' ∧
    s.keys.2.get k' fault' = s.get k' fault' ∧
    s.keys.2.keys = s.keys := by
  simp [get_state, keys_state]

/-- C2 counterexample: the claim as stated only forbids intervening
`put(k, ·)` and `remove(k)` calls, so an intervening `clear()` is allowed —
but after `open(); put("k1", [[1, 2]]); clear()`, the subsequent
`get("k1")` fails with `NotFound` instead of returning `[1, 2]`. -/
theorem put_get_round_trip_counterexample :
    ((runOps ((((Store.init.openStore "c1" "u" false).2).put "k1" [[1, 2]]
        false).2) [Op.doClear false]).get "k1" false).1 = .error .NotFound ∧
    ¬ ((runOps ((((Store.init.openStore "c1" "u" false).2).put "k1" [[1, 2]]
        false).2) [Op.doClear false]).get "k1" false).1 = .ok [1, 2] := by
  decide

/-- C2 (amended): after `open()` and a successful `put(k, segs)`, the value
bound to `k` stays exactly the byte-for-byte concatenation of `segs` across
any sequence of further calls containing no `put(k, ·)`, no `remove(k)` and
no `clear()`; whenever the store is open, `get(k)` then returns that
concatenation, and with a byte-wise encoder of a matching
encode/decode configuration installed, the encode-put/get-decode pipeline
returns the same concatenation. -/
theorem put_get_round_trip (s : Store) (cid uri : String) (k : Key)
    (segs : List (List Byte)) (ops : List Op) (f g : Byte → Byte)
    (hclosed : s.isOpen = false)
    (hnd : ops.all (fun op => ! op.disturbs k) = true) :
    (runOps ((((s.openStore cid uri false).2).put k segs false).2)
        ops).entries.lookup k = some segs.flatten ∧
    ((runOps ((((s.openStore cid uri false).2).put k segs false).2)
        ops).isOpen = true →
      ((runOps ((((s.openStore cid uri false).2).put k segs false).2)
          ops).get k false).1 = .ok segs.flatten) ∧
    ((∀ b, g (f b) = b) →
      ((((s.openStore cid uri false).2).putEnc (mapEncoder f g) k segs
          false).2.getEnc (mapEncoder f g) k false).1 = .ok segs.flatten) := by
  have hs1 : (s.openStore cid uri false).2 = { s with isOpen := true } := by
    unfold Store.openStore
    simp [hclosed]
  have hs1o : (s.openStore cid uri false).2.isOpen = true := by rw [hs1]
  have hlk : (((s.openStore cid uri false).2.put k segs false).2.entries.lookup k)
      = some segs.flatten := by
    rw [put_entries_open _ k segs hs1o, lookup_cons_self]
  have hlk3 : (runOps (((s.openStore cid uri false).2).put k segs false).2
      ops).entries.lookup k = some segs.flatten := by
    rw [runOps_preserves_lookup ops _ k hnd, hlk]
  refine ⟨hlk3, fun hopen3 => get_of_lookup hopen3 hlk3, fun hinv => ?_⟩
  have hlkE : (((s.openStore cid uri false).2.putEnc (mapEncoder f g) k segs
      false).2.entries.lookup k) = some ((segs.map (List.map f)).flatten) := by
    unfold Store.putEnc Encoder.encodeBufs
    rw [put_entries_open _ k _ hs1o, lookup_cons_self]
    rw [show (mapEncoder f g).enc = List.map f from rfl]
  have hoE : ((s.openStore cid uri false).2.putEnc (mapEncoder f g) k segs
      false).2.isOpen = true := by
    unfold Store.putEnc
    rw [put_isOpen]
    exact hs1o
  unfold Store.getEnc
  rw [get_of_lookup hoE hlkE]
  simp only [Except.map]
  rw [show (mapEncoder f g).dec = List.map g from rfl,
    map_flatten_of_inverse f g hinv]

/-- Witness for C2 at a concrete session: put `[[65], [66, 67]]` under
`"k1"`, run an undisturbing call, then get back `[65, 66, 67]`. -/
theorem put_get_round_trip_witness :
    (runOps (((Store.init.openStore "c1" "u" false).2).put "k1"
        [[65], [66, 67]] false).2 [Op.doKeys]).isOpen = true ∧
    ((runOps (((Store.init.openStore "c1" "u" false).2).put "k1"
        [[65], [66, 67]] false).2 [Op.doKeys]).get "k1" false).1
      = .ok [65, 66, 67] := by
  refine ⟨by decide, ?_⟩
  have h := put_get_round_trip Store.init "c1" "u" "k1" [[65], [66, 67]]
    [Op.doKeys] (fun b => b ^^^ 7) (fun b => b ^^^ 7) rfl (by decide)
  simpa using h.2.1 (by decide)

/-- C3: Key-set consistency — in every open store state, `keys()` returns
exactly the keys of the store contents, a key is in that collection iff
`contains_key` answers `true`, iff a fault-free `get` would succeed. -/
theorem key_set_consistency (s : Store) (k : Key) (hopen : s.isOpen = true) :
    s.keys.1 = .ok (s.entries.map Prod.fst) ∧
    ((s.contains_key k).1 = .ok true ↔ k ∈ s.entries.map Prod.fst) ∧
    ((s.contains_key k).1 = .ok true ↔ exOk (s.get k false).1 = true) := by
  have hkeys : s.keys.1 = .ok (s.entries.map Prod.fst) := by
    unfold Store.keys
    simp [hopen]
  have hck : (s.contains_key k).1 = .ok ((s.entries.lookup k).isSome) := by
    unfold Store.contains_key
    simp [hopen]
  have hget : exOk (s.get k false).1 = (s.entries.lookup k).isSome := by
    unfold Store.get
    cases hv : s.entries.lookup k with
    | none => simp [hopen, hv, exOk]
    | some v => simp [hopen, hv, exOk]
  refine ⟨hkeys, ?_, ?_⟩
  · rw [hck, ← lookup_isSome_iff_mem]
    simp
  · rw [hck, hget]
    simp

/-- Witness for C3 on a concrete two-key open store. -/
theorem key_set_consistency_witness :
    ({ isOpen := true, entries := [("a", [1]), ("b", [])] } : Store).keys.1
        = .ok ["a", "b"] ∧
    ((({ isOpen := true, entries := [("a", [1]), ("b", [])] } : Store).contains_key
        "a").1 = .ok true ↔ "a" ∈ ["a", "b"]) :=
  ⟨(key_set_consistency { isOpen := true, entries := [("a", [1]), ("b", [])] }
      "a" rfl).1,
   (key_set_consistency { isOpen := true, entries := [("a", [1]), ("b", [])] }
      "a" rfl).2.1⟩

/-- C4: Lifecycle enforcement — on a closed handle every one of `put`,
`get`, `remove`, `keys`, `clear` and `contains_key` fails with
`InvalidState` and never succeeds, leaving the state unchanged; the only
lifecycle transitions are Closed to Open through `open()` and Open to
Closed through `close()`: no other operation changes the open/closed
flag. -/
theorem lifecycle_enforcement (s t : Store) (k : Key) (segs : List (List Byte))
    (cid uri : String) (fault : Bool) (hclosed : s.isOpen = false) :
    s.put k segs fault = (.error .InvalidState, s) ∧
    s.get k fault = (.error .InvalidState, s) ∧
    s.remove k fault = (.error .InvalidState, s) ∧
    s.keys = (.error .InvalidState, s) ∧
    s.clear fault = (.error .InvalidState, s) ∧
    s.contains_key k = (.error .InvalidState, s) ∧
    exOk (s.openStore cid uri false).1 = true ∧
    (s.openStore cid uri false).2.isOpen = true ∧
    (t.isOpen = true → exOk t.close.1 = true ∧ t.close.2.isOpen = false) ∧
    (t.put k segs fault).2.isOpen = t.isOpen ∧
    (t.remove k fault).2.isOpen = t.isOpen ∧
    (t.clear fault).2.isOpen = t.isOpen ∧
    (t.get k fault).2 = t ∧
    t.keys.2 = t ∧
    (t.contains_key k).2 = t := by
  refine ⟨by unfold Store.put; simp [hclosed], by unfold Store.get; simp [hclosed],
    by unfold Store.remove; simp [hclosed], by unfold Store.keys; simp [hclosed],
    by unfold Store.clear; simp [hclosed],
    by unfold Store.contains_key; simp [hclosed],
    by unfold Store.openStore; simp [hclosed, exOk],
    by unfold Store.openStore; simp [hclosed],
    fun ht => ?_, put_isOpen t k segs fault, remove_isOpen t k fault,
    clear_isOpen t fault, get_state t k fault, keys_state t,
    contains_key_state t k⟩
  unfold Store.close
  simp [ht, exOk]

/-- Witness for C4 on the never-opened handle and a concrete open handle. -/
theorem lifecycle_enforcement_witness :
    Store.init.put "k" [[1]] false = (.error .InvalidState, Store.init) ∧
    exOk (({ isOpen := true, entries := [] } : Store).close).1 = true :=
  ⟨(lifecycle_enforcement Store.init { isOpen := true, entries := [] } "k"
      [[1]] "c" "u" false rfl).1,
   ((lifecycle_enforcement Store.init { isOpen := true, entries := [] } "k"
      [[1]] "c" "u" false rfl).2.2.2.2.2.2.2.2.1 rfl).1⟩

/-- C5: Encoder determinism and reversibility — for every byte-wise encoder
configuration whose decode transform inverts its encode transform (the
matching instance/configuration), `encode` is deterministic (equal segment
sequences give equal outputs) and `decode` applied to the value assembled
from the encoded segments recovers the original bytes exactly. -/
theorem encoder_deterministic_reversible (f g : Byte → Byte)
    (hinv : ∀ b, g (f b) = b) (bufs bufs' : List (List Byte)) :
    (bufs = bufs' →
      (mapEncoder f g).encodeBufs bufs = (mapEncoder f g).encodeBufs bufs') ∧
    (mapEncoder f g).dec (((mapEncoder f g).encodeBufs bufs).flatten)
      = bufs.flatten := by
  refine ⟨fun h => by rw [h], ?_⟩
  rw [show (mapEncoder f g).dec = List.map g from rfl]
  rw [show (mapEncoder f g).encodeBufs bufs = bufs.map (List.map f) from rfl]
  exact map_flatten_of_inverse f g hinv bufs

/-- Witness for C5 with the XOR-by-7 stream configuration on concrete
buffers. -/
theorem encoder_deterministic_reversible_witness :
    (∀ b : Byte, (fun x => x ^^^ 7) ((fun x => x ^^^ 7) b) = b) ∧
    (mapEncoder (fun x => x ^^^ 7) (fun x => x ^^^ 7)).dec
        (((mapEncoder (fun x => x ^^^ 7) (fun x => x ^^^ 7)).encodeBufs
          [[65, 66], [67]]).flatten) = [65, 66, 67] := by
  refine ⟨fun b => xor_xor_cancel 7 b, ?_⟩
  have h := encoder_deterministic_reversible (fun x => x ^^^ 7)
    (fun x => x ^^^ 7) (fun b => xor_xor_cancel 7 b) [[65, 66], [67]]
    [[65, 66], [67]]
  simpa using h.2

/-- C6: Error translation at the boundary — `errCode` maps each failure
kind of the taxonomy to one fixed, distinct negative integer; every static
callback maps success to a zero-or-positive code; and a negative returned
code implies the store state was not mutated by the call. -/
theorem boundary_error_translation (s : Store) (k cid uri : String)
    (bufs : List (List Byte)) (fault : Bool) :
    (∀ e₁ e₂ : PErr, errCode e₁ = errCode e₂ → e₁ = e₂) ∧
    (∀ e : PErr, errCode e < 0) ∧
    (∀ x : Except PErr Unit, exOk x = true → statusOf x = 0) ∧
    ((persistence_open s cid uri fault).1 < 0 →
      (persistence_open s cid uri fault).2 = s) ∧
    ((persistence_close s).1 < 0 → (persistence_close s).2 = s) ∧
    ((persistence_put s k bufs fault).1 < 0 →
      (persistence_put s k bufs fault).2 = s) ∧
    ((persistence_get s k fault).1 < 0 → (persistence_get s k fault).2.2 = s) ∧
    ((persistence_remove s k fault).1 < 0 →
      (persistence_remove s k fault).2 = s) ∧
    ((persistence_keys s).1 < 0 → (persistence_keys s).2.2 = s) ∧
    ((persistence_clear s fault).1 < 0 → (persistence_clear s fault).2 = s) ∧
    ((persistence_containskey s k).1 < 0 →
      (persistence_containskey s k).2 = s) ∧
    (∀ b : Bool, (s.contains_key k).1 = .ok b →
      0 ≤ (persistence_containskey s k).1) := by
  refine ⟨fun e₁ e₂ hc => by cases e₁ <;> cases e₂ <;> simp_all [errCode],
    fun e => by cases e <;> decide, ?_, ?_, ?_, ?_, ?_, ?_, ?_, ?_, ?_, ?_⟩
  · intro x hx
    cases x with
    | ok a => rfl
    | error e => simp [exOk] at hx
  · exact fun h =>
      openStore_error_state s cid uri fault (statusOf_neg_not_ok _ h)
  · exact fun h => close_error_state s (statusOf_neg_not_ok _ h)
  · exact fun h => put_error_state s k bufs fault (statusOf_neg_not_ok _ h)
  · intro _
    unfold persistence_get
    have hst := get_state s k fault
    rcases hg : s.get k fault with ⟨r, st⟩
    cases r <;> simp_all
  · exact fun h => remove_error_state s k fault (statusOf_neg_not_ok _ h)
  · intro _
    unfold persistence_keys
    have hst := keys_state s
    rcases hg : s.keys with ⟨r, st⟩
    cases r <;> simp_all
  · exact fun h => clear_error_state s fault (statusOf_neg_not_ok _ h)
  · intro _
    unfold persistence_containskey
    have hst := contains_key_state s k
    rcases hg : s.contains_key k with ⟨r, st⟩
    cases r <;> simp_all
  · intro b hb
    unfold persistence_containskey
    rcases hg : s.contains_key k with ⟨r, st⟩
    have : r = .ok b := by rw [hg] at hb; exact hb
    subst this
    cases b <;> simp

/-- Witness for C6: a `put` on a closed handle returns the negative
`InvalidState` code and the state is untouched. -/
theorem boundary_error_translation_witness :
    (persistence_put { isOpen := false, entries := [] } "k" [[1]] false).1 < 0 ∧
    (persistence_put { isOpen := false, entries := [] } "k" [[1]] false).2
      = { isOpen := false, entries := [] } := by
  refine ⟨by decide, ?_⟩
  have h := boundary_error_translation { isOpen := false, entries := [] }
    "k" "c" "u" [[1]] false
  exact h.2.2.2.2.2.1 (by decide)

/-- C7: Allocation discipline — a cross-boundary buffer obtained from
`persistence_malloc` carries the paired-allocator tag, the heap stays
well formed, releasing it through `persistence_free` succeeds and restores
the original live set (ownership transfers without a leak), while a buffer
produced by a generic allocator is rejected by `persistence_free`
(a mismatched allocate/free pairing is undefined). -/
theorem allocation_discipline (h : Heap) (n m : Nat) (hwf : h.wf = true) :
    (persistence_malloc h n).1.live.lookup (persistence_malloc h n).2
      = some Allocator.paired ∧
    (persistence_malloc h n).1.wf = true ∧
    persistence_free (persistence_malloc h n).1 (persistence_malloc h n).2
      = some { live := h.live, next := h.next + 1 } ∧
    persistence_free (generic_malloc h m).1 (generic_malloc h m).2 = none := by
  have hlt : ∀ q ∈ h.live, q.1 < h.next := by
    intro q hq
    have := List.all_eq_true.mp hwf q hq
    simpa using this
  refine ⟨by simp [persistence_malloc, List.lookup_cons], ?_, ?_, ?_⟩
  · simp only [persistence_malloc, Heap.wf, List.all_cons, List.all_eq_true,
      Bool.and_eq_true, decide_eq_true_eq]
    exact ⟨Nat.lt_succ_self _, fun q hq => Nat.lt_succ_of_lt (hlt q hq)⟩
  · have hlook : (persistence_malloc h n).1.live.lookup (persistence_malloc h n).2
        = some Allocator.paired := by
      simp [persistence_malloc, List.lookup_cons]
    unfold persistence_free
    rw [hlook]
    simp only [persistence_malloc]
    rw [List.filter_cons_of_neg (by simp)]
    rw [List.filter_eq_self.mpr
      (fun q hq => by simpa using Nat.ne_of_lt (hlt q hq))]
  · simp [persistence_free, generic_malloc, List.lookup_cons]

/-- Witness for C7 on the empty well-formed heap. -/
theorem allocation_discipline_witness :
    ({ live := [], next := 0 } : Heap).wf = true ∧
    persistence_free (persistence_malloc { live := [], next := 0 } 4).1
        (persistence_malloc { live := [], next := 0 } 4).2
      = some { live := [], next := 1 } :=
  ⟨by decide,
   (allocation_discipline { live := [], next := 0 } 4 4 (by decide)).2.2.1⟩

/-- C9: Boundary length representability — the adapter's `size_t`-to-`int`
length conversion is value-preserving exactly when the length is at most
`INT_MAX`, and for an `int`-range value the `int`-to-`size_t` conversion is
value-preserving exactly when the value is non-negative: a buffer length
crosses the boundary unchanged iff it lies in `[0, INT_MAX]`. -/
theorem boundary_length_representable (n : Nat) (i : Int)
    (hlo : -(2 ^ 31) ≤ i) (hhi : i < 2 ^ 31) :
    (intOfSize n = (n : Int) ↔ (n : Int) ≤ INT_MAX) ∧
    (((sizeOfInt i : Nat) : Int) = i ↔ 0 ≤ i) := by
  constructor
  · unfold intOfSize INT_MAX
    split_ifs with hsp <;> push_cast <;> omega
  · unfold sizeOfInt
    omega

/-- Witness for C9 at `INT_MAX` itself and at a negative length. -/
theorem boundary_length_representable_witness :
    (-(2 ^ 31) : Int) ≤ -1 ∧ (-1 : Int) < 2 ^ 31 ∧
    intOfSize 2147483647 = (2147483647 : Int) ∧
    ¬ ((sizeOfInt (-1) : Nat) : Int) = -1 := by
  refine ⟨by decide, by decide, ?_, ?_⟩
  · exact (boundary_length_representable 2147483647 (-1) (by decide)
      (by decide)).1.mpr (by decide)
  · intro hcontra
    exact absurd ((boundary_length_representable 2147483647 (-1) (by decide)
      (by decide)).2.mp hcontra) (by decide)

end Mqtt
